import Mathlib

/-
Verification of the acronym-enrichment pipeline specification against the
`parse-data-solheim` repository.

The repository ships the enrichment engine only as documentation
(`src/acronym_processor/README.md`, `docs/GEMINI_ACRONYM_PROCESSOR.md`): the
Python module `async_process_acronyms.py` it describes is absent from the
snapshot.  The pipeline components (Progress Store, Retry Controller,
Validator/Cleaner, Rate Limiter, Orchestrator, job enqueue) are therefore
modelled from the specification, as marked on each definition.  The frontend
components (`App.tsx`, the Settings component) are present as source and are
embedded directly from their TypeScript.
-/

set_option autoImplicit false

namespace AcronymPipeline

/-! ## String primitives

Executable character-list implementations of trimming, lower-casing and
substring search, used by the cleaning and validation models. -/

/-- Whitespace characters recognized by the trimming step. -/
def isWS (c : Char) : Bool :=
  c = ' ' || c = '\t' || c = '\n' || c = '\r'

/-- Drop leading whitespace from a character list. -/
def dropWS (l : List Char) : List Char :=
  l.dropWhile isWS

/-- Trim whitespace from both ends of a character list. -/
def trimChars (l : List Char) : List Char :=
  (dropWS ((dropWS l).reverse)).reverse

/-- Trim whitespace from both ends of a string. -/
def strTrim (s : String) : String :=
  ⟨trimChars s.data⟩

/-- Lower-case every character of a string. -/
def strLower (s : String) : String :=
  ⟨s.data.map Char.toLower⟩

/-- Length of a string in characters. -/
def strLen (s : String) : Nat :=
  s.data.length

/-- `listStartsWith l p` is true when `p` is an initial segment of `l`. -/
def listStartsWith : List Char → List Char → Bool
  | _, [] => true
  | [], _ :: _ => false
  | a :: as, b :: bs => a = b && listStartsWith as bs

/-- `listContainsSub needle hay` is true when `needle` occurs contiguously
inside `hay`. -/
def listContainsSub (needle : List Char) : List Char → Bool
  | [] => needle.isEmpty
  | c :: t => listStartsWith (c :: t) needle || listContainsSub needle t

/-- Case-insensitive substring test: `needle` occurs inside `hay` up to case. -/
def containsCI (hay needle : String) : Bool :=
  listContainsSub (strLower needle).data (strLower hay).data

/-! ## Key-preserving de-duplication

Shared machinery for the case-insensitive de-duplication performed on the
input queue and on the set-valued response fields: keep the first element for
each key, in first-occurrence order. -/

/-- De-duplicate a list by a key function, keeping the first element carrying
each key; `seen` holds the keys already emitted. -/
def dedupeKeyAux {α β : Type} [DecidableEq β] (key : α → β) :
    List β → List α → List α
  | _, [] => []
  | seen, x :: xs =>
    if key x ∈ seen then dedupeKeyAux key seen xs
    else x :: dedupeKeyAux key (key x :: seen) xs

/-- Modelled from the spec: the cleaning step of the absent
`async_process_acronyms.py` (§4.5 step 2) — trim whitespace on every entry,
drop empty strings, and de-duplicate case-insensitively preserving
first-seen order. -/
def cleanStringList (l : List String) : List String :=
  dedupeKeyAux strLower [] ((l.map strTrim).filter (fun s => !s.data.isEmpty))

/-! ## Data model -/

/-- An acronym job: the token and an optional grade hint (§3 Acronym Job). -/
structure AcronymJob where
  token : String
  requested_grade : Option Nat
deriving DecidableEq

/-- Normalized case-insensitive identity key of a job (§3 Acronym Job). -/
def jobKey (j : AcronymJob) : String :=
  strLower j.token

/-- Modelled from the spec: the enqueue step of the absent
`async_process_acronyms.py` (§3, §6) — the input list is read once and
duplicates are collapsed on a normalized case-insensitive key before
enqueue, preserving the first occurrence (its casing and grade hint). -/
def enqueueJobs (input : List AcronymJob) : List AcronymJob :=
  dedupeKeyAux jobKey [] input

/-- A raw response payload from the AI service, after parsing (§4.3). -/
structure RawResponse where
  acronym : String
  full_name : String
  description : String
  context : String
  related_terms : List String
  industry : String
  tags : List String
  grade : Option Nat
deriving DecidableEq

/-- A validated enrichment record (§3 Enrichment Result). -/
structure EnrichmentResult where
  acronym : String
  full_name : String
  description : String
  context : String
  related_terms : List String
  industry : String
  tags : List String
  grade : Option Nat
  content_warning : Bool
deriving DecidableEq

/-- Validator configuration (§6 configuration surface). -/
structure ValidationConfig where
  min_description_length : Nat
  min_related_terms : Nat
deriving DecidableEq

/-- The shipped defaults: minimum description length 20, minimum related
terms 1 (§6). -/
def defaultValidationConfig : ValidationConfig :=
  { min_description_length := 20, min_related_terms := 1 }

/-! ## Validator / Cleaner -/

/-- Modelled from the spec: the structural check of the absent
`async_process_acronyms.py` (§4.5 step 1) — every required field non-empty,
description at least the configured minimum length, related-terms count at
least the configured minimum.  Returns the first failure detail. -/
def validateStructure (cfg : ValidationConfig) (r : RawResponse) :
    Option String :=
  if r.acronym.data.isEmpty then some "empty acronym"
  else if r.full_name.data.isEmpty then some "empty full name"
  else if r.description.data.isEmpty then some "empty description"
  else if r.context.data.isEmpty then some "empty context"
  else if r.industry.data.isEmpty then some "empty industry"
  else if strLen r.description < cfg.min_description_length then
    some "description below minimum length"
  else if r.related_terms.length < cfg.min_related_terms then
    some "too few related terms"
  else none

/-- Modelled from the spec: the cleaning step of the absent
`async_process_acronyms.py` (§4.5 step 2) — trim every string field,
de-duplicate the set fields case-insensitively preserving first-seen order,
drop empty strings from set fields. -/
def cleanResponse (r : RawResponse) : RawResponse :=
  { acronym := strTrim r.acronym
    full_name := strTrim r.full_name
    description := strTrim r.description
    context := strTrim r.context
    related_terms := cleanStringList r.related_terms
    industry := strTrim r.industry
    tags := cleanStringList r.tags
    grade := r.grade }

/-- Placeholder phrases whose presence in a description is a hard content
rejection (§4.5 step 3). -/
def placeholderPhrases : List String :=
  ["n/a", "not available", "tbd"]

/-- True when the description equals or contains a known placeholder phrase,
compared case-insensitively (§4.5 step 3). -/
def hasPlaceholder (description : String) : Bool :=
  placeholderPhrases.any
    (fun p => listContainsSub p.data (strLower description).data)

/-- The kind of a validation rejection (§4.5 output). -/
inductive InvalidKind
  | structural
  | content
  | serialization
deriving DecidableEq

/-- Outcome of validation: a conforming result or a rejection (§4.5). -/
inductive ValidationOutcome
  | valid (result : EnrichmentResult)
  | invalid (kind : InvalidKind) (detail : String)
deriving DecidableEq

/-- Package a cleaned response as an enrichment record with the given
content-warning flag. -/
def toResultRec (r : RawResponse) (warn : Bool) : EnrichmentResult :=
  { acronym := r.acronym
    full_name := r.full_name
    description := r.description
    context := r.context
    related_terms := r.related_terms
    industry := r.industry
    tags := r.tags
    grade := r.grade
    content_warning := warn }

/-- Modelled from the spec: the Validator/Cleaner of the absent
`async_process_acronyms.py` (§4.5) — structural checks first, then cleaning,
then content checks.  A missing case-insensitive occurrence of the acronym in
the full name only sets the `content_warning` flag (lenient policy, §7/§9); a
placeholder description is a hard `content` rejection.  The serialization
step cannot fail here: a typed record always round-trips, every field exists
by construction. -/
def validateAndClean (cfg : ValidationConfig) (r : RawResponse) :
    ValidationOutcome :=
  match validateStructure cfg r with
  | some d => .invalid .structural d
  | none =>
    let c := cleanResponse r
    if hasPlaceholder c.description then
      .invalid .content "placeholder description"
    else
      .valid (toResultRec c (!containsCI c.full_name c.acronym))

/-! ## Retry Controller -/

/-- The error taxonomy surfaced by one attempt (§4.3, §7). -/
inductive ErrKind
  | rateLimitedE
  | quotaE
  | transientE
  | malformedE
  | fatalE
deriving DecidableEq

/-- Outcome of a single attempt after validation. -/
inductive AttemptOutcome
  | success (r : EnrichmentResult)
  | failure (kind : ErrKind)
deriving DecidableEq

/-- An `Invalid` validation outcome is treated by the Retry Controller as
`Malformed` (§4.5 output). -/
def toAttempt (v : ValidationOutcome) : AttemptOutcome :=
  match v with
  | .valid r => .success r
  | .invalid _ _ => .failure .malformedE

/-- Which error kinds are retried within the budget: everything except
`Fatal`, which aborts immediately (§4.4, §7). -/
def retryable (k : ErrKind) : Bool :=
  match k with
  | .fatalE => false
  | _ => true

/-- Terminal outcome of one job (§4.4 terminal state). -/
inductive JobResult
  | done (r : EnrichmentResult) (attempt_count : Nat)
  | failedJob (reason : ErrKind) (attempt_count : Nat)
deriving DecidableEq

/-- Modelled from the spec: the bounded retry loop of the absent
`async_process_acronyms.py` (§4.4) — `attempt` is the index of the attempt
being run, `retriesLeft` the remaining budget; retryable failures retry
until the budget is exhausted, `Fatal` aborts at once, and the terminal
state carries the failure reason and the attempt count. -/
def runAttempts (client : Nat → AttemptOutcome) :
    Nat → Nat → JobResult
  | 0, attempt =>
    match client attempt with
    | .success r => .done r (attempt + 1)
    | .failure k => .failedJob k (attempt + 1)
  | n + 1, attempt =>
    match client attempt with
    | .success r => .done r (attempt + 1)
    | .failure k =>
      if retryable k then runAttempts client n (attempt + 1)
      else .failedJob k (attempt + 1)

/-- Number of attempts the retry loop actually performs. -/
def attemptsUsed (client : Nat → AttemptOutcome) :
    Nat → Nat → Nat
  | 0, _ => 1
  | n + 1, attempt =>
    match client attempt with
    | .success _ => 1
    | .failure k =>
      if retryable k then 1 + attemptsUsed client n (attempt + 1) else 1

/-- Modelled from the spec: the Retry Controller entry point of the absent
`async_process_acronyms.py` (§4.4) — attempt 0 runs immediately, followed by
at most `maxRetries` retries. -/
def retryController (client : Nat → AttemptOutcome) (maxRetries : Nat) :
    JobResult :=
  runAttempts client maxRetries 0

/-- Default retry budget (§4.4, README: maximum 3 retry attempts). -/
def defaultMaxRetries : Nat := 3

/-! ## Progress Store -/

/-- A recorded per-token outcome (§3 Progress Record). -/
inductive Outcome
  | doneOut (r : EnrichmentResult)
  | failedOut (reason : ErrKind) (attempt_count : Nat)
deriving DecidableEq

/-- The state of one progress record. -/
inductive RecState
  | pending
  | recorded (o : Outcome)
deriving DecidableEq

/-- The durable store: token-keyed association list, newest binding first. -/
def ProgressStore : Type :=
  List (String × RecState)

/-- The record held for a token; a token never written is `Pending` (§3). -/
def stateAt (s : ProgressStore) (t : String) : RecState :=
  (List.lookup t s).getD .pending

/-- A record that has reached `Done` or `Failed`. -/
def isFinal (st : RecState) : Bool :=
  match st with
  | .recorded _ => true
  | .pending => false

/-- Modelled from the spec: `record(token, outcome)` of the absent
`async_process_acronyms.py` Progress Store (§4.6) — idempotent, first write
wins: a token whose record is already `Done` or `Failed` is left unchanged. -/
def record (s : ProgressStore) (t : String) (o : Outcome) : ProgressStore :=
  match stateAt s t with
  | .pending => (t, .recorded o) :: s
  | .recorded _ => s

/-- Modelled from the spec: `is_done(token)` of the absent
`async_process_acronyms.py` Progress Store (§4.6) — true exactly when the
token holds a `Done` record. -/
def isDone (s : ProgressStore) (t : String) : Bool :=
  match stateAt s t with
  | .recorded (.doneOut _) => true
  | _ => false

/-! ## Orchestrator -/

/-- Modelled from the spec: one orchestrator work item of the absent
`async_process_acronyms.py` (§4.7) — the durable store is consulted before
any work is dispatched; a token with a `Done` record is skipped without any
network call, otherwise the job is run (`jobRun` abstracts the Key Pool /
Rate Limiter / client / Retry Controller composite) and its outcome
recorded.  The second component lists the tokens for which network calls
were dispatched. -/
def runOne (jobRun : AcronymJob → Outcome) (s : ProgressStore)
    (j : AcronymJob) : ProgressStore × List String :=
  if isDone s j.token then (s, [])
  else (record s j.token (jobRun j), [j.token])

/-- Modelled from the spec: the orchestrator main loop of the absent
`async_process_acronyms.py` (§4.7) — drive every queued job through
`runOne`, threading the store and accumulating the dispatch trace. -/
def runPipeline (jobRun : AcronymJob → Outcome) (s : ProgressStore) :
    List AcronymJob → ProgressStore × List String
  | [] => (s, [])
  | j :: js =>
    let p := runOne jobRun s j
    let q := runPipeline jobRun p.1 js
    (q.1, p.2 ++ q.2)

/-! ## Rate Limiter -/

/-- One issued request: the credential used and the issue time in seconds. -/
structure ReqEvent where
  cred : String
  time : Nat
deriving DecidableEq

/-- The events a sliding-window counter for credential `c` sees at time
`now`: same credential, issued at most 60 seconds ago. -/
def inIssueWindow (c : String) (now : Nat) (e : ReqEvent) : Bool :=
  e.cred == c && e.time ≤ now && now < e.time + 60

/-- Requests for credential `c` inside the rolling window ending at `now`. -/
def windowCount (c : String) (now : Nat) (tr : List ReqEvent) : Nat :=
  (tr.filter (inIssueWindow c now)).length

/-- Modelled from the spec: the per-credential sliding-window limiter of the
absent `async_process_acronyms.py` (§4.2) — a trace (newest event first) is
admissible when every request was issued only while fewer than `limit`
requests for its credential stood in the preceding rolling 60-second window,
and times never decrease; a request the limiter blocks waits, so it does not
appear in the trace before its window admits it. -/
def limiterTraceOk (limit : Nat) : List ReqEvent → Bool
  | [] => true
  | e :: t =>
    decide (windowCount e.cred e.time t < limit)
    && t.all (fun e2 => e2.time ≤ e.time)
    && limiterTraceOk limit t

/-- Membership of an event in the fixed 60-second window starting at `s`. -/
def inWindow (c : String) (s : Nat) (e : ReqEvent) : Bool :=
  e.cred == c && s ≤ e.time && e.time < s + 60

/-- Default per-credential budget: 60 requests per rolling minute (§4.2). -/
def defaultPerMinuteLimit : Nat := 60

/-! ## Concrete data for witness instantiations -/

/-- A sample enrichment record. -/
def sampleResult : EnrichmentResult :=
  { acronym := "API"
    full_name := "API Gateway"
    description := "A coherent description of sufficient length."
    context := "software"
    related_terms := ["REST"]
    industry := "tech"
    tags := []
    grade := none
    content_warning := false }

/-- A store holding a `Done` record for the token `API`. -/
def sampleDoneStore : ProgressStore :=
  [("API", .recorded (.doneOut sampleResult))]

/-- A raw response whose description is shorter than the default minimum. -/
def shortDescResponse : RawResponse :=
  { acronym := "API"
    full_name := "API Gateway"
    description := "too short"
    context := "software"
    related_terms := ["REST"]
    industry := "tech"
    tags := []
    grade := none }

/-- A raw response passing the structural and placeholder checks whose full
name does not contain its acronym. -/
def warnResponse : RawResponse :=
  { acronym := "API"
    full_name := "Broker Interface Layer"
    description := "A coherent description of sufficient length."
    context := "software"
    related_terms := ["REST"]
    industry := "tech"
    tags := []
    grade := none }

/-- A two-event request trace on one credential. -/
def sampleTrace : List ReqEvent :=
  [⟨"key1", 30⟩, ⟨"key1", 0⟩]

end AcronymPipeline

namespace AcronymApp

/-! ## Frontend `App.tsx`: `processAcronyms` response handling

Embedded from
`acronym-completion-platform/frontend/src/App.tsx`, lines 144–156. -/

/-- One element of the `/process` response's `results` array; `payload`
stands for the remaining fields (`definition`, `enrichment`, …). -/
structure ApiResult where
  acronym : String
  payload : String
deriving DecidableEq

/-- The user-visible error `processAcronyms` sets. -/
inductive UserError
  | apiKeyIssues
  | quotaExhausted
deriving DecidableEq

/-- Embedding of `App.tsx` lines 144–156: look for the in-band sentinel
entries `API_KEY_ISSUES` and `QUOTA_EXHAUSTED`; if the first is present, set
the API-key error and filter out exactly the `API_KEY_ISSUES` entries; else
if the second is present, set the quota error and filter out exactly the
`QUOTA_EXHAUSTED` entries. -/
def processResults (rs : List ApiResult) : Option UserError × List ApiResult :=
  if (rs.find? (fun r => r.acronym == "API_KEY_ISSUES")).isSome then
    (some .apiKeyIssues, rs.filter (fun r => !(r.acronym == "API_KEY_ISSUES")))
  else if (rs.find? (fun r => r.acronym == "QUOTA_EXHAUSTED")).isSome then
    (some .quotaExhausted,
      rs.filter (fun r => !(r.acronym == "QUOTA_EXHAUSTED")))
  else
    (none, rs)

end AcronymApp

namespace AcronymSettings

/-! ## Frontend Settings component

Embedded from the unnamed source file `src/unnamed/part_014` (the Settings
component): `defaultSettings`, `validateSetting` and the accept/reject gate
of `handleSettingChange`.  Numeric setting values are embedded as exact
rationals. -/

/-- The names `validateSetting` switches on. -/
inductive SettingName
  | temperature
  | maxTokens
  | batchSize
  | historyLimit
  | requestsPerSecond
  | burstSize
  | maxRetries
  | ttlSeconds
  | gradeFilterMin
  | gradeFilterMax
deriving DecidableEq

/-- The `gradeFilter` sub-object (the fields `validateSetting` reads). -/
structure GradeFilterModel where
  enabled : Bool
  min : Option ℚ
  max : Option ℚ
deriving DecidableEq

/-- The `rateLimiting` sub-object of `processingConfig`. -/
structure RateLimitingModel where
  enabled : Bool
  requestsPerSecond : ℚ
  burstSize : ℚ
  maxRetries : ℚ
deriving DecidableEq

/-- The numeric part of the component's settings state. -/
structure SettingsModel where
  temperature : ℚ
  maxTokens : ℚ
  batchSize : ℚ
  historyLimit : ℚ
  rateLimiting : RateLimitingModel
  gradeFilter : GradeFilterModel
  ttlSeconds : ℚ
deriving DecidableEq

/-- Embedding of `defaultSettings` from `part_014` lines 26–74 (the numeric
fields): in particular
`processingConfig.rateLimiting.requestsPerSecond = 60`. -/
def defaultSettings : SettingsModel :=
  { temperature := 0.7
    maxTokens := 1000
    batchSize := 250
    historyLimit := 50
    rateLimiting :=
      { enabled := true
        requestsPerSecond := 60
        burstSize := 10
        maxRetries := 3 }
    gradeFilter := { enabled := false, min := some 1, max := some 12 }
    ttlSeconds := 3600 }

/-- Embedding of `validateSetting` from `part_014` lines 111–173: each case
returns its range error when the value lies outside the allowed interval,
and the grade-filter cases additionally cross-check against the current
settings state. -/
def validateSetting (s : SettingsModel) (name : SettingName) (value : ℚ) :
    Option String :=
  match name with
  | .temperature =>
    if value < 0 ∨ value > 1 then
      some "Temperature must be between 0 and 1"
    else none
  | .maxTokens =>
    if value < 100 ∨ value > 2000 then
      some "Max tokens must be between 100 and 2000"
    else none
  | .batchSize =>
    if value < 1 ∨ value > 250 then
      some "Batch size must be between 1 and 250"
    else none
  | .historyLimit =>
    if value < 10 ∨ value > 100 then
      some "History limit must be between 10 and 100"
    else none
  | .requestsPerSecond =>
    if value < 0.1 ∨ value > 10 then
      some "Requests per second must be between 0.1 and 10"
    else none
  | .burstSize =>
    if value < 1 ∨ value > 10 then
      some "Burst size must be between 1 and 10"
    else none
  | .maxRetries =>
    if value < 0 ∨ value > 10 then
      some "Max retries must be between 0 and 10"
    else none
  | .ttlSeconds =>
    if value < 60 ∨ value > 604800 then
      some "TTL must be between 60 seconds and 7 days"
    else none
  | .gradeFilterMin =>
    if value < 1 ∨ value > 12 then
      some "Min grade must be between 1 and 12"
    else
      match s.gradeFilter.max with
      | some m =>
        if value > m then some "Min grade cannot be greater than max grade"
        else none
      | none => none
  | .gradeFilterMax =>
    if value < 1 ∨ value > 12 then
      some "Max grade must be between 1 and 12"
    else
      match s.gradeFilter.min with
      | some m =>
        if value < m then some "Max grade cannot be less than min grade"
        else none
      | none => none

/-- Write one named numeric setting into the state. -/
def applySetting (s : SettingsModel) (name : SettingName) (value : ℚ) :
    SettingsModel :=
  match name with
  | .temperature => { s with temperature := value }
  | .maxTokens => { s with maxTokens := value }
  | .batchSize => { s with batchSize := value }
  | .historyLimit => { s with historyLimit := value }
  | .requestsPerSecond =>
    { s with rateLimiting := { s.rateLimiting with requestsPerSecond := value } }
  | .burstSize =>
    { s with rateLimiting := { s.rateLimiting with burstSize := value } }
  | .maxRetries =>
    { s with rateLimiting := { s.rateLimiting with maxRetries := value } }
  | .ttlSeconds => { s with ttlSeconds := value }
  | .gradeFilterMin =>
    { s with gradeFilter := { s.gradeFilter with min := some value } }
  | .gradeFilterMax =>
    { s with gradeFilter := { s.gradeFilter with max := some value } }

/-- Embedding of `handleSettingChange` from `part_014` lines 175–196: a
value failing `validateSetting` records the error and leaves the settings
unchanged; only a validated value is entered into the state. -/
def handleSettingChange (s : SettingsModel) (name : SettingName) (value : ℚ) :
    SettingsModel × Option String :=
  match validateSetting s name value with
  | some e => (s, some e)
  | none => (applySetting s name value, none)

end AcronymSettings

/-! # Supporting lemmas -/

namespace AcronymPipeline

/-- Filtering with a pointwise weaker predicate keeps at least as many
elements. -/
theorem length_filter_mono {α : Type} (l : List α) (p q : α → Bool)
    (h : ∀ x ∈ l, p x = true → q x = true) :
    (l.filter p).length ≤ (l.filter q).length := by
  induction l with
  | nil => simp
  | cons a t ih =>
    have ht : ∀ x ∈ t, p x = true → q x = true :=
      fun x hx => h x (List.mem_cons_of_mem a hx)
    have iht := ih ht
    cases hp : p a with
    | false =>
      cases hq : q a with
      | false => simpa [List.filter_cons, hp, hq] using iht
      | true =>
        simp [List.filter_cons, hp, hq]
        omega
    | true =>
      have hqa := h a (List.mem_cons_self a t) hp
      simp [List.filter_cons, hp, hqa]
      omega

/-- Reading the store through a fresh binding. -/
theorem stateAt_cons (s : ProgressStore) (t t2 : String) (v : RecState) :
    stateAt ((t2, v) :: s) t = if t = t2 then v else stateAt s t := by
  by_cases h : t = t2
  · have hb : (t == t2) = true := by simpa using h
    simp [stateAt, List.lookup, hb, h]
  · have hb : (t == t2) = false := by simpa using h
    simp [stateAt, List.lookup, hb, h]

/-- A token whose record is already final keeps its record across any
write. -/
theorem stateAt_record_of_final (s : ProgressStore) (t t2 : String)
    (o : Outcome) (h : isFinal (stateAt s t2) = true) :
    stateAt (record s t o) t2 = stateAt s t2 := by
  unfold record
  cases hst : stateAt s t with
  | pending =>
    rw [stateAt_cons]
    by_cases h2 : t2 = t
    · rw [h2] at h
      rw [hst] at h
      simp [isFinal] at h
    · rw [if_neg h2]
  | recorded o2 => rfl

/-- A `Done` record is in particular final. -/
theorem isFinal_of_isDone (s : ProgressStore) (t : String)
    (h : isDone s t = true) : isFinal (stateAt s t) = true := by
  unfold isDone at h
  unfold isFinal
  cases hst : stateAt s t with
  | pending => rw [hst] at h; simp at h
  | recorded o2 => rfl

/-- A `Done` record survives any write to the store. -/
theorem isDone_record (s : ProgressStore) (t t2 : String) (o : Outcome)
    (h : isDone s t2 = true) : isDone (record s t o) t2 = true := by
  unfold isDone at *
  rw [stateAt_record_of_final s t t2 o
    (isFinal_of_isDone s t2 (by unfold isDone; exact h))]
  exact h

end AcronymPipeline

namespace AcronymPipeline

section Dedupe

variable {α β : Type} [DecidableEq β] (key : α → β)

theorem dedupeKeyAux_sublist :
    ∀ (seen : List β) (l : List α), (dedupeKeyAux key seen l).Sublist l := by
  intro seen l
  induction l generalizing seen with
  | nil => simp [dedupeKeyAux]
  | cons x xs ih =>
    by_cases hx : key x ∈ seen
    · simp only [dedupeKeyAux, if_pos hx]
      exact (ih seen).cons x
    · simp only [dedupeKeyAux, if_neg hx]
      exact (ih _).cons₂ x

theorem dedupeKeyAux_key_notMem :
    ∀ (seen : List β) (l : List α) (x : α),
      x ∈ dedupeKeyAux key seen l → key x ∉ seen := by
  intro seen l
  induction l generalizing seen with
  | nil => intro x hx; simp [dedupeKeyAux] at hx
  | cons y ys ih =>
    intro x hx
    by_cases hy : key y ∈ seen
    · exact ih seen x (by simpa [dedupeKeyAux, if_pos hy] using hx)
    · rw [show dedupeKeyAux key seen (y :: ys)
          = y :: dedupeKeyAux key (key y :: seen) ys by
            simp [dedupeKeyAux, if_neg hy]] at hx
      rcases List.mem_cons.mp hx with rfl | hx2
      · exact hy
      · intro hc
        exact ih (key y :: seen) x hx2 (List.mem_cons_of_mem _ hc)

theorem dedupeKeyAux_pairwise :
    ∀ (seen : List β) (l : List α),
      (dedupeKeyAux key seen l).Pairwise (fun a b => key a ≠ key b) := by
  intro seen l
  induction l generalizing seen with
  | nil => simp [dedupeKeyAux]
  | cons y ys ih =>
    by_cases hy : key y ∈ seen
    · simpa [dedupeKeyAux, if_pos hy] using ih seen
    · simp only [dedupeKeyAux, if_neg hy]
      refine List.Pairwise.cons ?_ (ih _)
      intro b hb
      have hnot := dedupeKeyAux_key_notMem key (key y :: seen) ys b hb
      intro hc
      exact hnot (by rw [← hc]; exact List.mem_cons_self _ _)

theorem dedupeKeyAux_cover :
    ∀ (seen : List β) (l : List α) (x : α), x ∈ l → key x ∉ seen →
      ∃ y, y ∈ dedupeKeyAux key seen l ∧ key y = key x := by
  intro seen l
  induction l generalizing seen with
  | nil => intro x hx; simp at hx
  | cons z zs ih =>
    intro x hx hs
    rcases List.mem_cons.mp hx with rfl | hx2
    · exact ⟨x, by simp [dedupeKeyAux, if_neg hs], rfl⟩
    · by_cases hz : key z ∈ seen
      · have h := ih seen x hx2 hs
        rcases h with ⟨y, hy1, hy2⟩
        exact ⟨y, by simpa [dedupeKeyAux, if_pos hz] using hy1, hy2⟩
      · by_cases hzx : key z = key x
        · exact ⟨z, by simp [dedupeKeyAux, if_neg hz], hzx⟩
        · have h := ih (key z :: seen) x hx2 (by
            intro hc
            rcases List.mem_cons.mp hc with h1 | h2
            · exact hzx h1.symm
            · exact hs h2)
          rcases h with ⟨y, hy1, hy2⟩
          refine ⟨y, ?_, hy2⟩
          simp only [dedupeKeyAux, if_neg hz]
          exact List.mem_cons_of_mem _ hy1

theorem dedupeKeyAux_first :
    ∀ (seen : List β) (l : List α) (x : α), x ∈ dedupeKeyAux key seen l →
      l.find? (fun y => decide (key y = key x)) = some x := by
  intro seen l
  induction l generalizing seen with
  | nil => intro x hx; simp [dedupeKeyAux] at hx
  | cons z zs ih =>
    intro x hx
    by_cases hz : key z ∈ seen
    · rw [show dedupeKeyAux key seen (z :: zs) = dedupeKeyAux key seen zs by
        simp [dedupeKeyAux, if_pos hz]] at hx
      have h1 := ih seen x hx
      have h2 : key x ∉ seen := dedupeKeyAux_key_notMem key seen zs x hx
      have hne : ¬ (key z = key x) := fun hc => h2 (hc ▸ hz)
      rw [List.find?_cons_of_neg _ (by simpa using hne)]
      exact h1
    · rw [show dedupeKeyAux key seen (z :: zs)
          = z :: dedupeKeyAux key (key z :: seen) zs by
            simp [dedupeKeyAux, if_neg hz]] at hx
      rcases List.mem_cons.mp hx with rfl | hx2
      · rw [List.find?_cons_of_pos _ (by simp)]
      · have h2 := dedupeKeyAux_key_notMem key (key z :: seen) zs x hx2
        have hne : ¬ (key z = key x) :=
          fun hc => h2 (by rw [← hc]; exact List.mem_cons_self _ _)
        rw [List.find?_cons_of_neg _ (by simpa using hne)]
        exact ih (key z :: seen) x hx2

end Dedupe

end AcronymPipeline

namespace AcronymPipeline

/-- A client that keeps failing with one retryable error kind drives the
retry loop through its whole budget: the loop performs one attempt per unit
of remaining budget plus the initial one, and terminates in `failedJob` with
that kind and the total attempt count. -/
theorem runAttempts_const (client : Nat → AttemptOutcome) (k : ErrKind)
    (hk : retryable k = true) (hc : ∀ n, client n = .failure k) :
    ∀ (n a : Nat),
      runAttempts client n a = .failedJob k (a + n + 1)
      ∧ attemptsUsed client n a = n + 1 := by
  intro n
  induction n with
  | zero =>
    intro a
    constructor
    · simp only [runAttempts]
      rw [hc a]
    · simp only [attemptsUsed]
  | succ m ih =>
    intro a
    constructor
    · simp only [runAttempts]
      rw [hc a]
      simp only [hk, if_true]
      rw [(ih (a + 1)).1]
      have he : a + 1 + m + 1 = a + (m + 1) + 1 := by omega
      rw [he]
    · simp only [attemptsUsed]
      rw [hc a]
      simp only [hk, if_true]
      rw [(ih (a + 1)).2]
      omega

/-- C3: in any admissible limiter trace, every credential and every rolling
60-second window see at most `limit` issued requests (default limit 60,
`defaultPerMinuteLimit`); a request the limiter blocks waits — it is absent
from the trace until its window admits it — rather than being sent. -/
theorem per_credential_rate_bound :
    ∀ (limit : Nat) (tr : List ReqEvent), limiterTraceOk limit tr = true →
      ∀ (c : String) (s : Nat),
        (tr.filter (inWindow c s)).length ≤ limit := by
  intro limit tr
  induction tr with
  | nil => intro h c s; simp
  | cons e t ih =>
    intro h c s
    simp only [limiterTraceOk, Bool.and_eq_true, decide_eq_true_eq,
      List.all_eq_true] at h
    obtain ⟨⟨h1, h2⟩, h3⟩ := h
    rw [List.filter_cons]
    by_cases he : inWindow c s e = true
    · rw [if_pos he]
      simp only [inWindow, Bool.and_eq_true, beq_iff_eq,
        decide_eq_true_eq] at he
      obtain ⟨⟨hec, hes⟩, helt⟩ := he
      have hmono : (t.filter (inWindow c s)).length
          ≤ windowCount e.cred e.time t := by
        unfold windowCount
        apply length_filter_mono
        intro x hx hpx
        simp only [inWindow, Bool.and_eq_true, beq_iff_eq,
          decide_eq_true_eq] at hpx
        obtain ⟨⟨hxc, hxs⟩, hxlt⟩ := hpx
        have hxt : x.time ≤ e.time := by
          have := h2 x hx
          simpa using this
        simp only [inIssueWindow, Bool.and_eq_true, beq_iff_eq,
          decide_eq_true_eq]
        exact ⟨⟨by rw [hxc, hec], hxt⟩, by omega⟩
      simp only [List.length_cons]
      omega
    · rw [if_neg he]
      exact ih h3 c s

end AcronymPipeline

/-! # Claim theorems -/

namespace AcronymPipeline

/-- C4: recording an outcome for a token a second time is a no-op — the
store after `record t o1; record t o2` equals the store after `record t o1`
alone (first write wins) — and any token whose record is already `Done` or
`Failed` keeps exactly that record across any further `record` call, so no
record ever regresses out of a final state. -/
theorem progress_record_first_write_wins :
    ∀ (s : ProgressStore) (t t2 : String) (o1 o2 : Outcome),
      record (record s t o1) t o2 = record s t o1
      ∧ (isFinal (stateAt s t2) = true →
          stateAt (record s t o1) t2 = stateAt s t2) := by
  intro s t t2 o1 o2
  constructor
  · cases hst : stateAt s t with
    | pending =>
      have h1 : record s t o1 = (t, .recorded o1) :: s := by
        unfold record; rw [hst]
      rw [h1]
      unfold record
      rw [stateAt_cons]
      simp
    | recorded o3 =>
      have h1 : record s t o1 = s := by unfold record; rw [hst]
      rw [h1]
      unfold record
      rw [hst]
  · exact stateAt_record_of_final s t t2 o1

/-- Witness for C4 at a concrete store and concrete outcomes. -/
theorem progress_record_first_write_wins_witness :
    record (record sampleDoneStore "CPU" (.failedOut .transientE 4)) "CPU"
        (.doneOut sampleResult)
      = record sampleDoneStore "CPU" (.failedOut .transientE 4)
    ∧ isFinal (stateAt sampleDoneStore "API") = true
    ∧ stateAt (record sampleDoneStore "CPU" (.failedOut .transientE 4)) "API"
      = stateAt sampleDoneStore "API" := by
  have h := progress_record_first_write_wins sampleDoneStore "CPU" "API"
    (.failedOut .transientE 4) (.doneOut sampleResult)
  exact ⟨h.1, by decide, h.2 (by decide)⟩

/-- C1: a token whose Progress Store record is `Done` at the start of a run
never appears in the dispatch trace — no network call is made for it — and
its record is left unchanged by the whole run; in particular a second run
over the same input performs zero calls for tokens already `Done`. -/
theorem orchestrator_skips_done :
    ∀ (jobRun : AcronymJob → Outcome) (s : ProgressStore)
      (js : List AcronymJob) (t : String),
      isDone s t = true →
        t ∉ (runPipeline jobRun s js).2
        ∧ stateAt (runPipeline jobRun s js).1 t = stateAt s t
        ∧ isDone (runPipeline jobRun s js).1 t = true := by
  intro jobRun s js t
  induction js generalizing s with
  | nil =>
    intro h
    exact ⟨by simp [runPipeline], rfl, h⟩
  | cons j js ih =>
    intro h
    cases hj : isDone s j.token with
    | true =>
      have hr : runPipeline jobRun s (j :: js) = runPipeline jobRun s js := by
        simp [runPipeline, runOne, hj]
      rw [hr]
      exact ih s h
    | false =>
      have hf : isFinal (stateAt s t) = true := isFinal_of_isDone s t h
      have hne : t ≠ j.token := by
        intro hc
        rw [hc] at h
        rw [h] at hj
        exact Bool.noConfusion hj
      have hstate : stateAt (record s j.token (jobRun j)) t = stateAt s t :=
        stateAt_record_of_final s j.token t (jobRun j) hf
      have hdone : isDone (record s j.token (jobRun j)) t = true :=
        isDone_record s j.token t (jobRun j) h
      obtain ⟨ih1, ih2, ih3⟩ := ih (record s j.token (jobRun j)) hdone
      have hr : runPipeline jobRun s (j :: js)
          = ((runPipeline jobRun (record s j.token (jobRun j)) js).1,
             j.token ::
               (runPipeline jobRun (record s j.token (jobRun j)) js).2) := by
        simp [runPipeline, runOne, hj]
      rw [hr]
      refine ⟨?_, ?_, ih3⟩
      · intro hc
        rcases List.mem_cons.mp hc with h1 | h2
        · exact hne h1
        · exact ih1 h2
      · rw [ih2, hstate]

/-- Witness for C1: with `API` already `Done`, a run over the job `API`
makes no call for it and leaves its record unchanged. -/
theorem orchestrator_skips_done_witness :
    isDone sampleDoneStore "API" = true
    ∧ "API" ∉ (runPipeline (fun _ => .failedOut .transientE 4)
        sampleDoneStore [⟨"API", none⟩]).2
    ∧ stateAt (runPipeline (fun _ => .failedOut .transientE 4)
        sampleDoneStore [⟨"API", none⟩]).1 "API"
      = stateAt sampleDoneStore "API" := by
  have h := orchestrator_skips_done (fun _ => .failedOut .transientE 4)
    sampleDoneStore [⟨"API", none⟩] "API" (by decide)
  exact ⟨by decide, h.1, h.2.1⟩

/-- C2: a job whose every attempt fails with a `Transient` error is
attempted exactly `maxRetries + 1` times and ends `Failed` carrying the
transient reason and that attempt count. -/
theorem retry_budget_exhaustion :
    ∀ (client : Nat → AttemptOutcome) (maxRetries : Nat),
      (∀ n, client n = .failure .transientE) →
        retryController client maxRetries
          = .failedJob .transientE (maxRetries + 1)
        ∧ attemptsUsed client maxRetries 0 = maxRetries + 1 := by
  intro client m hc
  have h := runAttempts_const client .transientE rfl hc m 0
  unfold retryController
  refine ⟨?_, h.2⟩
  rw [h.1]
  have hz : 0 + m + 1 = m + 1 := by omega
  rw [hz]

/-- Witness for C2 at the default budget 3: 4 attempts, then `Failed`. -/
theorem retry_budget_exhaustion_witness :
    retryController (fun _ => .failure .transientE) defaultMaxRetries
      = .failedJob .transientE 4
    ∧ attemptsUsed (fun _ => .failure .transientE) defaultMaxRetries 0 = 4 := by
  have h := retry_budget_exhaustion (fun _ => .failure .transientE)
    defaultMaxRetries (fun n => rfl)
  simpa [defaultMaxRetries] using h

end AcronymPipeline

namespace AcronymPipeline

/-- C5 -/
theorem short_description_rejected :
    ∀ (cfg : ValidationConfig) (r : RawResponse),
      strLen r.description < cfg.min_description_length →
        (∃ d, validateAndClean cfg r = .invalid .structural d)
        ∧ (∀ res, validateAndClean cfg r ≠ .valid res)
        ∧ toAttempt (validateAndClean cfg r) = .failure .malformedE
        ∧ ∀ m, retryController
            (fun _ => toAttempt (validateAndClean cfg r)) m
            = .failedJob .malformedE (m + 1) := by
  intro cfg r h
  have hs : ∃ d, validateStructure cfg r = some d := by
    unfold validateStructure
    repeat' split
    all_goals first
      | exact ⟨_, rfl⟩
      | omega
  obtain ⟨d, hd⟩ := hs
  have hv : validateAndClean cfg r = .invalid .structural d := by
    unfold validateAndClean
    rw [hd]
  refine ⟨⟨d, hv⟩, ?_, ?_, ?_⟩
  · intro res hres
    rw [hv] at hres
    exact ValidationOutcome.noConfusion hres
  · rw [hv]; rfl
  · intro m
    have hm := runAttempts_const
      (fun _ => toAttempt (validateAndClean cfg r)) .malformedE rfl
      (fun n => by
        show toAttempt (validateAndClean cfg r)
          = AttemptOutcome.failure ErrKind.malformedE
        rw [hv]
        rfl) m 0
    unfold retryController
    rw [hm.1]
    have hz : 0 + m + 1 = m + 1 := by omega
    rw [hz]

/-- C5 witness -/
theorem short_description_rejected_witness :
    strLen shortDescResponse.description
      < defaultValidationConfig.min_description_length
    ∧ validateAndClean defaultValidationConfig shortDescResponse
        = .invalid .structural "description below minimum length"
    ∧ toAttempt (validateAndClean defaultValidationConfig shortDescResponse)
        = .failure .malformedE
    ∧ retryController
        (fun _ => toAttempt
          (validateAndClean defaultValidationConfig shortDescResponse))
        defaultMaxRetries
      = .failedJob .malformedE 4 := by
  have h := short_description_rejected defaultValidationConfig
    shortDescResponse (by decide)
  refine ⟨by decide, by decide, h.2.2.1, ?_⟩
  have h4 := h.2.2.2 defaultMaxRetries
  simpa [defaultMaxRetries] using h4

/-- C8 -/
theorem missing_acronym_warns_not_rejects :
    ∀ (cfg : ValidationConfig) (r : RawResponse),
      validateStructure cfg r = none →
      hasPlaceholder (cleanResponse r).description = false →
      containsCI (cleanResponse r).full_name (cleanResponse r).acronym
        = false →
        validateAndClean cfg r = .valid (toResultRec (cleanResponse r) true)
        ∧ (toResultRec (cleanResponse r) true).content_warning = true
        ∧ toAttempt (validateAndClean cfg r)
            = .success (toResultRec (cleanResponse r) true) := by
  intro cfg r h1 h2 h3
  have hv : validateAndClean cfg r
      = .valid (toResultRec (cleanResponse r) true) := by
    unfold validateAndClean
    rw [h1]
    simp [h2, h3]
  exact ⟨hv, rfl, by rw [hv]; rfl⟩

/-- C8 witness -/
theorem missing_acronym_warns_not_rejects_witness :
    validateStructure defaultValidationConfig warnResponse = none
    ∧ hasPlaceholder (cleanResponse warnResponse).description = false
    ∧ containsCI (cleanResponse warnResponse).full_name
        (cleanResponse warnResponse).acronym = false
    ∧ validateAndClean defaultValidationConfig warnResponse
        = .valid (toResultRec (cleanResponse warnResponse) true) := by
  have h := missing_acronym_warns_not_rejects defaultValidationConfig
    warnResponse (by decide) (by decide) (by decide)
  exact ⟨by decide, by decide, by decide, h.1⟩

end AcronymPipeline

namespace AcronymPipeline

/-- C6 -/
theorem cleaning_behavior :
    ∀ (l : List String) (r : RawResponse),
      cleanStringList ["API", "api", " API "] = ["API"]
      ∧ (cleanStringList l).Sublist
          ((l.map strTrim).filter (fun s => !s.data.isEmpty))
      ∧ (cleanStringList l).Pairwise (fun a b => strLower a ≠ strLower b)
      ∧ (∀ x, x ∈ cleanStringList l →
          ((l.map strTrim).filter (fun s => !s.data.isEmpty)).find?
              (fun y => decide (strLower y = strLower x)) = some x)
      ∧ (∀ x, x ∈ (l.map strTrim).filter (fun s => !s.data.isEmpty) →
          ∃ y, y ∈ cleanStringList l ∧ strLower y = strLower x)
      ∧ (∀ x, x ∈ cleanStringList l → x ∈ l.map strTrim ∧ x.data ≠ [])
      ∧ (cleanResponse r).acronym = strTrim r.acronym
      ∧ (cleanResponse r).full_name = strTrim r.full_name
      ∧ (cleanResponse r).description = strTrim r.description
      ∧ (cleanResponse r).context = strTrim r.context
      ∧ (cleanResponse r).industry = strTrim r.industry
      ∧ (cleanResponse r).related_terms = cleanStringList r.related_terms
      ∧ (cleanResponse r).tags = cleanStringList r.tags := by
  intro l r
  refine ⟨by decide, ?_, ?_, ?_, ?_, ?_, rfl, rfl, rfl, rfl, rfl, rfl, rfl⟩
  · exact dedupeKeyAux_sublist strLower [] _
  · exact dedupeKeyAux_pairwise strLower [] _
  · intro x hx
    exact dedupeKeyAux_first strLower [] _ x hx
  · intro x hx
    exact dedupeKeyAux_cover strLower [] _ x hx (by simp)
  · intro x hx
    have hmem := (dedupeKeyAux_sublist strLower []
      ((l.map strTrim).filter (fun s => !s.data.isEmpty))).subset hx
    rw [List.mem_filter] at hmem
    refine ⟨hmem.1, ?_⟩
    have hne := hmem.2
    intro hc
    rw [hc] at hne
    simp at hne

/-- C6 witness -/
theorem cleaning_behavior_witness :
    cleanStringList ["API", "api", " API "] = ["API"]
    ∧ ((["API", "api", " API "].map strTrim).filter
          (fun s => !s.data.isEmpty)).find?
        (fun y => decide (strLower y = strLower "API")) = some "API" := by
  have h := cleaning_behavior ["API", "api", " API "] warnResponse
  exact ⟨h.1, h.2.2.2.1 "API" (by decide)⟩

/-- C7 -/
theorem enqueue_dedup :
    ∀ (input : List AcronymJob),
      enqueueJobs [⟨"API", some 2⟩, ⟨"api", some 7⟩, ⟨"CPU", none⟩]
        = [⟨"API", some 2⟩, ⟨"CPU", none⟩]
      ∧ (enqueueJobs [⟨"API", none⟩, ⟨"api", none⟩, ⟨"CPU", none⟩]).map
          AcronymJob.token = ["API", "CPU"]
      ∧ (enqueueJobs input).Sublist input
      ∧ (enqueueJobs input).Pairwise (fun a b => jobKey a ≠ jobKey b)
      ∧ (∀ j, j ∈ input →
          ∃ j2, j2 ∈ enqueueJobs input ∧ jobKey j2 = jobKey j)
      ∧ (∀ j, j ∈ enqueueJobs input →
          input.find? (fun x => decide (jobKey x = jobKey j)) = some j) := by
  intro input
  refine ⟨by decide, by decide, ?_, ?_, ?_, ?_⟩
  · exact dedupeKeyAux_sublist jobKey [] input
  · exact dedupeKeyAux_pairwise jobKey [] input
  · intro j hj
    exact dedupeKeyAux_cover jobKey [] input j hj (by simp)
  · intro j hj
    exact dedupeKeyAux_first jobKey [] input j hj

/-- C7 witness -/
theorem enqueue_dedup_witness :
    enqueueJobs [⟨"API", some 2⟩, ⟨"api", some 7⟩, ⟨"CPU", none⟩]
      = [⟨"API", some 2⟩, ⟨"CPU", none⟩]
    ∧ [(⟨"API", some 2⟩ : AcronymJob), ⟨"api", some 7⟩, ⟨"CPU", none⟩].find?
        (fun x => decide (jobKey x = jobKey ⟨"CPU", none⟩))
      = some ⟨"CPU", none⟩ := by
  have h := enqueue_dedup [⟨"API", some 2⟩, ⟨"api", some 7⟩, ⟨"CPU", none⟩]
  exact ⟨h.1, h.2.2.2.2.2 ⟨"CPU", none⟩ (by decide)⟩

end AcronymPipeline

namespace AcronymPipeline

/-- Witness for C3: a concrete admissible two-request trace at the default
limit, bounded in the window starting at 0. -/
theorem per_credential_rate_bound_witness :
    limiterTraceOk defaultPerMinuteLimit sampleTrace = true
    ∧ (sampleTrace.filter (inWindow "key1" 0)).length
        ≤ defaultPerMinuteLimit := by
  exact ⟨by decide,
    per_credential_rate_bound defaultPerMinuteLimit sampleTrace
      (by decide) "key1" 0⟩

end AcronymPipeline

namespace AcronymApp

/-- C9 counterexample: with both sentinels present, only the
`API_KEY_ISSUES` entries are removed — a `QUOTA_EXHAUSTED` entry stays in
the displayed results, so the handler does not remove exactly the elements
bearing the sentinel acronyms. -/
theorem process_sentinel_counterexample :
    (processResults [⟨"API_KEY_ISSUES", "x"⟩, ⟨"QUOTA_EXHAUSTED", "y"⟩]).1
      = some .apiKeyIssues
    ∧ (processResults [⟨"API_KEY_ISSUES", "x"⟩, ⟨"QUOTA_EXHAUSTED", "y"⟩]).2
      = [⟨"QUOTA_EXHAUSTED", "y"⟩]
    ∧ (⟨"QUOTA_EXHAUSTED", "y"⟩ : ApiResult).acronym = "QUOTA_EXHAUSTED" := by
  exact ⟨by decide, by decide, by decide⟩

/-- C9 (amended): key failure and quota exhaustion are signaled in-band by
sentinel `acronym` values; when `API_KEY_ISSUES` is present the handler sets
the API-key error and removes exactly the `API_KEY_ISSUES` entries (entries
bearing `QUOTA_EXHAUSTED`, like all others, are kept); only otherwise, when
`QUOTA_EXHAUSTED` is present, it sets the quota error and removes exactly
those entries; genuine acronyms equal to the filtered sentinel string are
silently dropped with it. -/
theorem process_sentinel_amended :
    ∀ (rs : List ApiResult),
      ((∃ r, r ∈ rs ∧ r.acronym = "API_KEY_ISSUES") →
        (processResults rs).1 = some .apiKeyIssues
        ∧ (∀ r, r ∈ (processResults rs).2 → r.acronym ≠ "API_KEY_ISSUES")
        ∧ (∀ r, r ∈ rs → r.acronym ≠ "API_KEY_ISSUES" →
            r ∈ (processResults rs).2))
      ∧ ((¬ ∃ r, r ∈ rs ∧ r.acronym = "API_KEY_ISSUES") →
          (∃ r, r ∈ rs ∧ r.acronym = "QUOTA_EXHAUSTED") →
        (processResults rs).1 = some .quotaExhausted
        ∧ (∀ r, r ∈ (processResults rs).2 → r.acronym ≠ "QUOTA_EXHAUSTED")
        ∧ (∀ r, r ∈ rs → r.acronym ≠ "QUOTA_EXHAUSTED" →
            r ∈ (processResults rs).2))
      ∧ ((¬ ∃ r, r ∈ rs ∧ r.acronym = "API_KEY_ISSUES") →
          (¬ ∃ r, r ∈ rs ∧ r.acronym = "QUOTA_EXHAUSTED") →
        (processResults rs).1 = none ∧ (processResults rs).2 = rs) := by
  intro rs
  have hfind : ∀ (a : String),
      ((rs.find? (fun r => r.acronym == a)).isSome = true)
        ↔ ∃ r, r ∈ rs ∧ r.acronym = a := by
    intro a
    rw [List.find?_isSome]
    constructor
    · rintro ⟨r, hr, hp⟩
      exact ⟨r, hr, by simpa using hp⟩
    · rintro ⟨r, hr, hp⟩
      exact ⟨r, hr, by simpa using hp⟩
  refine ⟨?_, ?_, ?_⟩
  · intro hex
    have h1 : (rs.find? (fun r => r.acronym == "API_KEY_ISSUES")).isSome
        = true := (hfind _).mpr hex
    unfold processResults
    rw [if_pos h1]
    refine ⟨rfl, ?_, ?_⟩
    · intro r hr
      simp only [List.mem_filter, Bool.not_eq_eq_eq_not, Bool.not_true,
        beq_eq_false_iff_ne] at hr
      exact hr.2
    · intro r hr hne
      simp only [List.mem_filter, Bool.not_eq_eq_eq_not, Bool.not_true,
        beq_eq_false_iff_ne]
      exact ⟨hr, hne⟩
  · intro hno hex
    have h1 : ¬ ((rs.find? (fun r => r.acronym == "API_KEY_ISSUES")).isSome
        = true) := fun hc => hno ((hfind _).mp hc)
    have h2 : (rs.find? (fun r => r.acronym == "QUOTA_EXHAUSTED")).isSome
        = true := (hfind _).mpr hex
    unfold processResults
    rw [if_neg h1, if_pos h2]
    refine ⟨rfl, ?_, ?_⟩
    · intro r hr
      simp only [List.mem_filter, Bool.not_eq_eq_eq_not, Bool.not_true,
        beq_eq_false_iff_ne] at hr
      exact hr.2
    · intro r hr hne
      simp only [List.mem_filter, Bool.not_eq_eq_eq_not, Bool.not_true,
        beq_eq_false_iff_ne]
      exact ⟨hr, hne⟩
  · intro hno1 hno2
    have h1 : ¬ ((rs.find? (fun r => r.acronym == "API_KEY_ISSUES")).isSome
        = true) := fun hc => hno1 ((hfind _).mp hc)
    have h2 : ¬ ((rs.find? (fun r => r.acronym == "QUOTA_EXHAUSTED")).isSome
        = true) := fun hc => hno2 ((hfind _).mp hc)
    unfold processResults
    rw [if_neg h1, if_neg h2]
    exact ⟨rfl, rfl⟩

/-- C9 witness: with one `API_KEY_ISSUES` entry and one genuine entry, the
error is set, and the genuine entry stays displayed. -/
theorem process_sentinel_amended_witness :
    (processResults [⟨"API_KEY_ISSUES", "x"⟩, ⟨"CPU", "central"⟩]).1
      = some .apiKeyIssues
    ∧ (⟨"CPU", "central"⟩ : ApiResult)
        ∈ (processResults [⟨"API_KEY_ISSUES", "x"⟩, ⟨"CPU", "central"⟩]).2 := by
  have h := (process_sentinel_amended
    [⟨"API_KEY_ISSUES", "x"⟩, ⟨"CPU", "central"⟩]).1
    ⟨⟨"API_KEY_ISSUES", "x"⟩, by simp, rfl⟩
  exact ⟨h.1, h.2.2 ⟨"CPU", "central"⟩ (by simp) (by decide)⟩

end AcronymApp

namespace AcronymSettings

/-- C10: the shipped default `requestsPerSecond` is 60, `validateSetting`
rejects any `requestsPerSecond` outside [0.1, 10] with exactly the message
"Requests per second must be between 0.1 and 10", so the default fails the
component's own validation and `handleSettingChange` refuses to enter it,
leaving the settings unchanged. -/
theorem default_requests_per_second_invalid :
    ∀ (s : SettingsModel) (v : ℚ),
      defaultSettings.rateLimiting.requestsPerSecond = 60
      ∧ (validateSetting s .requestsPerSecond v
            = some "Requests per second must be between 0.1 and 10"
          ↔ (v < 0.1 ∨ v > 10))
      ∧ validateSetting defaultSettings .requestsPerSecond
          defaultSettings.rateLimiting.requestsPerSecond
        = some "Requests per second must be between 0.1 and 10"
      ∧ handleSettingChange defaultSettings .requestsPerSecond
          defaultSettings.rateLimiting.requestsPerSecond
        = (defaultSettings,
            some "Requests per second must be between 0.1 and 10") := by
  intro s v
  have hiff : validateSetting s .requestsPerSecond v
      = some "Requests per second must be between 0.1 and 10"
      ↔ (v < 0.1 ∨ v > 10) := by
    unfold validateSetting
    by_cases h : v < 0.1 ∨ v > 10
    · simp [h]
    · simp [h]
  have h60 : ((60 : ℚ) < 0.1 ∨ (60 : ℚ) > 10) := by norm_num
  have hval : validateSetting defaultSettings .requestsPerSecond 60
      = some "Requests per second must be between 0.1 and 10" := by
    unfold validateSetting
    rw [if_pos h60]
  refine ⟨rfl, hiff, hval, ?_⟩
  show handleSettingChange defaultSettings .requestsPerSecond 60 = _
  unfold handleSettingChange
  rw [hval]

end AcronymSettings
